import Mathlib

/-!
# Verification of the automated cache-policy search loop

Shallow embedding of the Python sources `run_loop_docker.py` and
`ChampSim_CRC2/eval_ipc_docker.py` (repository `H-Liou/csc491-hw1`),
together with proofs settling the specification claims about them.

Modelling conventions:
* Python `float` values are modelled as exact rationals (`ℚ`); numeric
  literals such as `1.3` are read decimally (`13/10`), and divisions of
  parsed integer counters are modelled as exact rational division
  (written `Rat.divInt` so that concrete runs reduce in the kernel).
* Python strings are modelled as `String` / `List Char`; the regular
  expressions used by the sources are small, so each one is translated
  into a dedicated matcher that follows Python `re` semantics
  (leftmost search, greedy / lazy backtracking priority, `IGNORECASE`
  where the source passes that flag, ASCII character classes).
* Fallible code (Python exceptions) is modelled with `Except` /
  `Option`.
-/

/-! ## Character classes (ASCII reading of Python's `\s`, `\d`) -/

/-- Python `re` whitespace class `\s` (ASCII): space, tab, newline,
carriage return, vertical tab, form feed. -/
def isSpaceChar (c : Char) : Bool :=
  c = ' ' || c = '\t' || c = '\n' || c = '\r' || c = '\x0b' || c = '\x0c'

/-- Drop a maximal run of `\s` characters (the deterministic residue of a
greedy `\s*` whose continuation starts with a non-whitespace character). -/
def dropSpaces (s : List Char) : List Char := s.dropWhile isSpaceChar

/-- Match `\s+` followed by a non-whitespace continuation: at least one
whitespace character must be present, then the maximal run is consumed. -/
def wsPlus (s : List Char) : Option (List Char) :=
  match s with
  | [] => none
  | c :: rest => if isSpaceChar c then some (dropSpaces rest) else none

/-- Match a literal (case-sensitively), returning the rest of the input. -/
def matchLit : List Char → List Char → Option (List Char)
  | [], s => some s
  | _ :: _, [] => none
  | l :: ls, c :: cs => if c = l then matchLit ls cs else none

/-- Match a literal case-insensitively (the literal is given in lower
case); models `re.IGNORECASE` on ASCII literals. -/
def matchLitCI : List Char → List Char → Option (List Char)
  | [], s => some s
  | _ :: _, [] => none
  | l :: ls, c :: cs => if c.toLower = l then matchLitCI ls cs else none

/-- `re.search` semantics: try the matcher at each position from the left,
returning the first success.  (All patterns in the sources need at least
one character, so the end-of-string position can never match.) -/
def reSearch {α : Type} (m : List Char → Option α) : List Char → Option α
  | [] => none
  | c :: rest =>
    match m (c :: rest) with
    | some v => some v
    | none => reSearch m rest

/-! ## Numeric tokens -/

/-- Value of a digit string. -/
def digitsToNat (ds : List Char) : Nat :=
  ds.foldl (fun n c => 10 * n + (c.toNat - 48)) 0

/-- Match `([0-9]+)` (greedy), returning its value and the rest. -/
def natTok (s : List Char) : Option (Nat × List Char) :=
  let ds := s.takeWhile Char.isDigit
  if ds.isEmpty then none
  else some (digitsToNat ds, s.dropWhile Char.isDigit)

/-- Match `([0-9]*\.?[0-9]+)` with Python's backtracking priority:
the integer part is taken greedily; a decimal point is consumed only
when at least one digit follows it (otherwise the optional `\.?`
backtracks to the empty match, as for input `"5."`). The captured text
is converted as `float` would convert it, read decimally. -/
def numTok (s : List Char) : Option (ℚ × List Char) :=
  let d1 := s.takeWhile Char.isDigit
  let r1 := s.dropWhile Char.isDigit
  match r1 with
  | '.' :: r2 =>
    let d2 := r2.takeWhile Char.isDigit
    if d2.isEmpty then
      if d1.isEmpty then none else some ((digitsToNat d1 : ℚ), r1)
    else
      some (Rat.divInt (digitsToNat (d1 ++ d2) : ℤ) ((10 ^ d2.length : ℕ) : ℤ),
            r2.dropWhile Char.isDigit)
  | _ => if d1.isEmpty then none else some ((digitsToNat d1 : ℚ), r1)

/-! ## `eval_ipc_docker.parse_ipc` — the primary metric extractor

The source tries, in order:
1. `re.search(r"CPU\s*\d+\s+cumulative\s+IPC:\s*([0-9]*\.?[0-9]+)", output, re.IGNORECASE)`
2. `re.search(r"Overall\s+IPC:\s*([0-9]*\.?[0-9]+)", output, re.IGNORECASE)`
3. `re.findall(r"c[u]?mmulative\s+IPC:\s*([0-9]*\.?[0-9]+)", output, re.IGNORECASE)`,
   taking the last match,
4. `Total\s+Instructions:\s*([0-9]+)` / `Total\s+Cycles:\s*([0-9]+)`, dividing
   and guarding against zero cycles,
and otherwise prints the last 500 characters of the output and raises
`RuntimeError("IPC not found in simulator output.")`.
-/

/-- Pattern 1 anchored at a position: `CPU\s*\d+\s+cumulative\s+IPC:\s*(num)`.
Each greedy class is followed by a disjoint literal, so maximal munch is
the unique backtracking outcome. -/
def matchCpuIpcAt (s : List Char) : Option ℚ :=
  (matchLitCI "cpu".data s).bind fun a =>
  (natTok (dropSpaces a)).bind fun p =>
  (wsPlus p.2).bind fun b =>
  (matchLitCI "cumulative".data b).bind fun c =>
  (wsPlus c).bind fun d =>
  (matchLitCI "ipc:".data d).bind fun e =>
  (numTok (dropSpaces e)).map (·.1)

/-- Pattern 2 anchored at a position: `Overall\s+IPC:\s*(num)`. -/
def matchOverallIpcAt (s : List Char) : Option ℚ :=
  (matchLitCI "overall".data s).bind fun a =>
  (wsPlus a).bind fun b =>
  (matchLitCI "ipc:".data b).bind fun c =>
  (numTok (dropSpaces c)).map (·.1)

/-- Tail of the typo pattern after the leading `c`: `mmulative\s+IPC:\s*(num)`. -/
def matchCumTail (s : List Char) : Option (ℚ × List Char) :=
  (matchLitCI "mmulative".data s).bind fun a =>
  (wsPlus a).bind fun b =>
  (matchLitCI "ipc:".data b).bind fun c =>
  numTok (dropSpaces c)

/-- Pattern 3 anchored at a position: `c[u]?mmulative\s+IPC:\s*(num)`.
The optional `[u]?` is greedy, so the `u`-branch is tried first.
Note this matches the spellings `cummulative` / `cmmulative` but NOT the
correct spelling `cumulative` (single `m`). Returns the captured value
and the rest of the input after the match (for `findall`). -/
def matchCumAt (s : List Char) : Option (ℚ × List Char) :=
  (matchLitCI "c".data s).bind fun s1 =>
  match (matchLitCI "u".data s1).bind matchCumTail with
  | some r => some r
  | none => matchCumTail s1

/-- `re.findall` for pattern 3: scan left to right, collect every
non-overlapping match (continuing after each match's end).  The fuel is
the input length; every successful match consumes at least the leading
`c`, so one unit of fuel per character always suffices. -/
def findallCumAux : Nat → List Char → List ℚ
  | 0, _ => []
  | _ + 1, [] => []
  | fuel + 1, c :: rest =>
    match matchCumAt (c :: rest) with
    | some (v, after) => v :: findallCumAux fuel after
    | none => findallCumAux fuel rest

/-- All captured values of pattern 3, leftmost first. -/
def findallCum (s : List Char) : List ℚ := findallCumAux s.length s

/-- `Total\s+Instructions:\s*([0-9]+)` anchored at a position. -/
def matchTotalInstrAt (s : List Char) : Option Nat :=
  (matchLitCI "total".data s).bind fun a =>
  (wsPlus a).bind fun b =>
  (matchLitCI "instructions:".data b).bind fun c =>
  (natTok (dropSpaces c)).map (·.1)

/-- `Total\s+Cycles:\s*([0-9]+)` anchored at a position. -/
def matchTotalCyclesAt (s : List Char) : Option Nat :=
  (matchLitCI "total".data s).bind fun a =>
  (wsPlus a).bind fun b =>
  (matchLitCI "cycles:".data b).bind fun c =>
  (natTok (dropSpaces c)).map (·.1)

/-- `re.search` of pattern 1 over the whole output. -/
def searchCpuIpc (output : String) : Option ℚ := reSearch matchCpuIpcAt output.data

/-- `re.search` of pattern 2 over the whole output. -/
def searchOverallIpc (output : String) : Option ℚ := reSearch matchOverallIpcAt output.data

/-- `re.search` of the Total-Instructions pattern. -/
def searchTotalInstr (output : String) : Option Nat := reSearch matchTotalInstrAt output.data

/-- `re.search` of the Total-Cycles pattern. -/
def searchTotalCycles (output : String) : Option Nat := reSearch matchTotalCyclesAt output.data

instance {ε α : Type} [DecidableEq ε] [DecidableEq α] : DecidableEq (Except ε α) := fun a b =>
  match a, b with
  | .ok x, .ok y =>
    if h : x = y then .isTrue (by rw [h]) else .isFalse (by intro e; cases e; exact h rfl)
  | .error x, .error y =>
    if h : x = y then .isTrue (by rw [h]) else .isFalse (by intro e; cases e; exact h rfl)
  | .ok _, .error _ => .isFalse (by intro e; cases e)
  | .error _, .ok _ => .isFalse (by intro e; cases e)

/-- Python `s[-n:]`: the last `n` characters (the whole string when it is
shorter than `n`). -/
def pyTail (n : Nat) (s : String) : String :=
  ⟨s.data.drop (s.data.length - n)⟩

/-- The failure value of `parse_ipc`: the source prints the last 500
characters of the output as a diagnostic and raises
`RuntimeError("IPC not found in simulator output.")`; the error value
carries that bounded tail excerpt. -/
structure MetricNotFound where
  tail : String
deriving DecidableEq, Repr

/-- `parse_ipc` from `eval_ipc_docker.py` (lines 113–135). -/
def parse_ipc (output : String) : Except MetricNotFound ℚ :=
  match searchCpuIpc output with
  | some v => .ok v
  | none =>
    match searchOverallIpc output with
    | some v => .ok v
    | none =>
      match (findallCum output.data).getLast? with
      | some v => .ok v
      | none =>
        match searchTotalInstr output, searchTotalCycles output with
        | some instr, some cycles =>
          if 0 < cycles then .ok (Rat.divInt (instr : ℤ) (cycles : ℤ))
          else .error ⟨pyTail 500 output⟩
        | _, _ => .error ⟨pyTail 500 output⟩

/-! ## The LLC hit-rate parsers

Both files use the identical (case-sensitive) regex
`LLC TOTAL\s+ACCESS:\s+(\d+)\s+HIT:\s+(\d+)`.
-/

/-- The LLC statistics pattern anchored at a position, returning
`(access, hit)`. -/
def matchLLCAt (s : List Char) : Option (Nat × Nat) :=
  (matchLit "LLC TOTAL".data s).bind fun a =>
  (wsPlus a).bind fun b =>
  (matchLit "ACCESS:".data b).bind fun c =>
  (wsPlus c).bind fun d =>
  (natTok d).bind fun p =>
  (wsPlus p.2).bind fun e =>
  (matchLit "HIT:".data e).bind fun f =>
  (wsPlus f).bind fun g =>
  (natTok g).map fun q => (p.1, q.1)

/-- `re.search` of the LLC statistics pattern. -/
def searchLLC (output : String) : Option (Nat × Nat) := reSearch matchLLCAt output.data

/-- `parse_hit_rate` from `run_loop_docker.py` (lines 132–153): on a
match it returns `hit/access`, or `0.0` when the access count is zero;
when the pattern is absent it prints the last 500 characters and raises
`RuntimeError("LLC TOTAL not found")` (modelled as the error value). -/
def parse_hit_rate (output : String) : Except String ℚ :=
  match searchLLC output with
  | some p =>
    if 0 < p.1 then .ok (Rat.divInt (p.2 : ℤ) (p.1 : ℤ)) else .ok 0
  | none => .error "LLC TOTAL not found"

/-- `parse_cache_hit_rate` from `eval_ipc_docker.py` (lines 137–142):
best-effort secondary metric, `none` when the pattern is absent,
`0.0` when the access count is zero. -/
def parse_cache_hit_rate (output : String) : Option ℚ :=
  match searchLLC output with
  | none => none
  | some p => if 0 < p.1 then some (Rat.divInt (p.2 : ℤ) (p.1 : ℤ)) else some 0

/-- The aggregate score of `evaluate_policy` (`eval_ipc_docker.py` line 172):
`mean_ipc = sum(r["ipc"] for r in results) / len(results) if results else 0.0`. -/
def mean_ipc (ipcs : List ℚ) : ℚ :=
  if ipcs.isEmpty then 0 else ipcs.sum / (ipcs.length : ℚ)

/-! ## `run_loop_docker.sanitize`

`"".join(c if c.isalnum() else "_" for c in name).strip("_").lower()`
(ASCII reading of `str.isalnum` / `str.lower`).
-/

/-- `str.strip("_")`: remove leading and trailing underscores. -/
def stripUnderscores (l : List Char) : List Char :=
  ((l.dropWhile (· = '_')).reverse.dropWhile (· = '_')).reverse

/-- `sanitize` from `run_loop_docker.py` (lines 68–70). -/
def sanitize (name : String) : String :=
  ⟨(stripUnderscores (name.data.map fun c => if c.isAlphanum then c else '_')).map
     Char.toLower⟩

/-- Modelled from the spec: the sanitizer that §4.3 describes, which in
addition COLLAPSES runs of consecutive separators into a single one
(for refinement comparison with the source's `sanitize`, which does not
collapse). -/
def collapseUnderscores : List Char → List Char
  | [] => []
  | c :: rest =>
    let r := collapseUnderscores rest
    if c = '_' then
      match r with
      | '_' :: _ => r
      | _ => c :: r
    else c :: r

/-- Modelled from the spec: map non-alphanumerics to `_`, collapse
redundant separators, lower-case. -/
def sanitizeSpec (name : String) : String :=
  ⟨((collapseUnderscores (name.data.map fun c => if c.isAlphanum then c else '_')).map
      Char.toLower)⟩

/-! ## `run_loop_docker.parse_policy_content`

Three independent `re.search` extractions with `re.DOTALL | re.IGNORECASE`:
* name: `##\s*Policy\s*Name\s*\n(.*?)\n`
* description: `##\s*Policy\s*Description\s*\n(.*?)\n`
* code: a fenced block opened by a cpp-tagged fence and closed by a bare
  fence, lazily: the source pattern is the cpp fence, `\s*(.*?)\s*`, then
  the closing fence.
Each captured group is `.strip()`-ed.
-/

/-- All rests after matching `\s*\n` at a position, in the greedy
backtracking order of Python (`\s*` longest first): try every prefix
length `j` of the leading whitespace run, longest first, requiring the
character right after it to be a newline. -/
def wsNlRests (s : List Char) : List (List Char) :=
  ((List.range ((s.takeWhile isSpaceChar).length + 1)).reverse).filterMap fun j =>
    match s.drop j with
    | '\n' :: rest => some rest
    | _ => none

/-- The lazy group `(.*?)\n`: the (shortest) prefix up to the first
newline; fails when no newline follows. -/
def groupToNl : List Char → Option (List Char)
  | [] => none
  | c :: rest => if c = '\n' then some [] else (groupToNl rest).map (c :: ·)

/-- `##\s*Policy\s*<key>\s*\n(.*?)\n` anchored at a position
(`key` is `name` or `description`, in lower case), returning group 1.
`\s*` before a non-whitespace literal is deterministic maximal munch;
`\s*\n` needs genuine backtracking (`wsNlRests`). -/
def matchSectionAt (key : List Char) (s : List Char) : Option (List Char) :=
  (matchLitCI "##".data s).bind fun a =>
  (matchLitCI "policy".data (dropSpaces a)).bind fun b =>
  (matchLitCI key (dropSpaces b)).bind fun c =>
  (wsNlRests c).findSome? groupToNl

/-- `re.search` for a section pattern. -/
def searchSection (key : List Char) : List Char → Option (List Char)
  | [] => none
  | c :: rest =>
    match matchSectionAt key (c :: rest) with
    | some g => some g
    | none => searchSection key rest

/-- Python `str.strip()` (ASCII whitespace). -/
def pyStrip (l : List Char) : List Char :=
  ((l.dropWhile isSpaceChar).reverse.dropWhile isSpaceChar).reverse

/-- The `_extract` helper of `parse_policy_content`: search, take group 1,
strip. -/
def extract_section (key : List Char) (text : String) : Option String :=
  (searchSection key text.data).map fun g => ⟨pyStrip g⟩

/-- The lazy group of the code pattern, `(.*?)\s*` followed by the closing
fence: the shortest prefix after which `\s*` and the closing fence match
(`\s*` before the fence is deterministic maximal munch). -/
def codeGroupAt : List Char → Option (List Char)
  | [] => none
  | c :: rest =>
    if (matchLit "```".data (dropSpaces (c :: rest))).isSome then some []
    else (codeGroupAt rest).map (c :: ·)

/-- The code-fence pattern anchored at a position: the cpp fence, then
greedy `\s*` (longest prefix of the whitespace run first), then the lazy
group. -/
def matchCodeAt (s : List Char) : Option (List Char) :=
  (matchLitCI "```cpp".data s).bind fun a =>
  (((List.range ((a.takeWhile isSpaceChar).length + 1)).reverse).map (a.drop ·)).findSome?
    codeGroupAt

/-- `re.search` for the code pattern. -/
def searchCode : List Char → Option (List Char)
  | [] => none
  | c :: rest =>
    match matchCodeAt (c :: rest) with
    | some g => some g
    | none => searchCode rest

/-- The code extraction of `parse_policy_content`. -/
def extract_code (text : String) : Option String :=
  (searchCode text.data).map fun g => ⟨pyStrip g⟩

/-- `parse_policy_content` from `run_loop_docker.py` (lines 72–82):
returns the three independently extracted sections
`(name, desc, code)`, each possibly absent. -/
def parse_policy_content (text : String) :
    Option String × Option String × Option String :=
  (extract_section "name".data text,
   extract_section "description".data text,
   extract_code text)

/-- Python truthiness of an optional string (`None` and `""` are falsy):
this is how `main` tests `if not (name and desc and code)`. -/
def pyTruthy : Option String → Bool
  | none => false
  | some s => !s.isEmpty

/-- A fully populated candidate (the spec's `Candidate`, minus the
identifiers derived later). -/
structure Candidate where
  name : String
  desc : String
  code : String
deriving DecidableEq, Repr

/-- The parse-and-validate step of `main` (lines 303–307): the response
yields a candidate only when all three sections are truthy, otherwise the
slot is dropped (`continue`). -/
def parseGeneratorResponse (text : String) : Option Candidate :=
  match parse_policy_content text with
  | (some n, some d, some c) =>
    if n.isEmpty || d.isEmpty || c.isEmpty then none else some ⟨n, d, c⟩
  | _ => none

/-! ## Candidate selection (`main`, lines 344–356)

`best_cand = max(candidate_results, key=lambda x: x["avg_hit"])` over the
list built in generation-slot order; Python's `max` keeps the current
maximum on ties, so the FIRST maximal element wins.  An empty list is
skipped (`if not candidate_results: continue`).
-/

/-- One entry of `candidate_results`. -/
structure CandidateResult where
  name : String
  avg_hit : ℚ
deriving DecidableEq, Repr

/-- Python `max(..., key=...)`: fold keeping the current maximum unless
the new element's key is strictly greater. -/
def pyMaxByAvg (a : CandidateResult) (l : List CandidateResult) : CandidateResult :=
  l.foldl (fun acc c => if c.avg_hit > acc.avg_hit then c else acc) a

/-- The selection step of `main`: `none` models the
`if not candidate_results: continue` skip. -/
def selectBest : List CandidateResult → Option CandidateResult
  | [] => none
  | a :: l => some (pyMaxByAvg a l)

/-! ## The iteration state machine (`main`, lines 204–367)

Modelled state: `best` is `best_hit`, `current` is `current_hit`,
`records` is the sequence of scores recorded under the `"all"` label.
Each iteration's abstract input is `Option ℚ`: the chosen candidate's
average hit rate, or `none` when no candidate survived the iteration.

The source updates `best_hit` lazily: at the top of every iteration
after the first, while building the feedback sentence, it folds the
previous iteration's chosen score (`current_hit`) into `best_hit` when
it is strictly greater.  The early-exit test at the bottom of the
iteration (`if best_hit > 0 and (current_hit / best_hit) > 1.3: break`)
therefore compares the newly chosen score against a `best_hit` that does
NOT yet include it — the pre-iteration best in the spec's sense.
-/

structure LoopState where
  best : ℚ
  current : ℚ
  records : List ℚ
deriving DecidableEq, Repr

/-- The feedback-time update of `best_hit` (lines 252–261): skipped on
iteration 0; otherwise `best_hit = current_hit` when
`current_hit > best_hit`. -/
def feedbackUpdate (first : Bool) (s : LoopState) : LoopState :=
  if first then s
  else if s.current > s.best then { s with best := s.current } else s

/-- One loop iteration (without the prompt/LLM plumbing): feedback
update, then — when a candidate was chosen — record it, set
`current_hit`, and evaluate the early-exit condition
`best_hit > 0 and (current_hit / best_hit) > 1.3`.
Returns the new state and whether `break` fires. -/
def loopStep (first : Bool) (s : LoopState) (chosen : Option ℚ) : LoopState × Bool :=
  let s1 := feedbackUpdate first s
  match chosen with
  | none => (s1, false)
  | some c =>
    ({ s1 with current := c, records := s1.records ++ [c] },
     decide (0 < s1.best ∧ (13 : ℚ) / 10 < c / s1.best))

/-- Run the loop from iteration index `i` over a list of per-iteration
outcomes, stopping early when the exit condition fires. -/
def runLoop : Nat → LoopState → List (Option ℚ) → LoopState
  | _, s, [] => s
  | i, s, o :: rest =>
    let r := loopStep (i == 0) s o
    if r.2 then r.1 else runLoop (i + 1) r.1 rest

/-- `best_hit` after the first `k` iterations of a run. -/
def bestAt (s0 : LoopState) (outs : List (Option ℚ)) (k : Nat) : ℚ :=
  (runLoop 0 s0 (outs.take k)).best

/-! ## The per-candidate evaluation loop (`main`, lines 321–333)

For each benchmark item the source does, with NO exception handler
inside the loop (and none around it up to the top level of `main`):
```
out = run_policy(exe, trace_path)   # re-raises CalledProcessError
hit = parse_hit_rate(out)           # raises RuntimeError when absent
total_hit += hit; per_wl.append(...); record(...)
```
The run step is abstracted as an `Except`-valued input per benchmark
item: `.ok output` is a completed simulation with captured stdout,
`.error` a `CalledProcessError` raised by `run_policy` (a timeout, were
one ever configured, would surface the same way).
-/

/-- Granular evaluation failures that escape the per-candidate loop. -/
inductive EvalError where
  /-- `run_policy` re-raised `subprocess.CalledProcessError`. -/
  | runFailed
  /-- `parse_hit_rate` raised (`RuntimeError`, message attached). -/
  | metricNotFound (msg : String)
deriving DecidableEq, Repr

/-- Evaluate one candidate over the benchmark items: the recorded
per-item observations (hit rates), and the exception that escaped the
loop, if any.  The first failing item stops the loop — the remaining
items are NOT evaluated. -/
def evalWorkloads : List (Except Unit String) → List ℚ × Option EvalError
  | [] => ([], none)
  | .error _ :: _ => ([], some .runFailed)
  | .ok out :: rest =>
    match parse_hit_rate out with
    | .error m => ([], some (.metricNotFound m))
    | .ok h =>
      let r := evalWorkloads rest
      (h :: r.1, r.2)

/-- One candidate slot of an iteration: `dropped` models an LLM
transport failure, a parse failure, or a compile failure — each caught
by `main` with `continue` — while `built` carries the abstract run
results of the per-benchmark loop. -/
inductive SlotOutcome where
  | dropped
  | built (runs : List (Except Unit String))

/-- The candidate loop of one iteration (`for j in range(CANDIDATES)`).
Dropped slots are contained; but an exception escaping `evalWorkloads`
propagates out of the whole loop (there is no handler), aborting the
remaining candidates and the run.  On success each candidate contributes
`avg_hit = total_hit / len(workloads)`. -/
def processSlots : List SlotOutcome → Except EvalError (List ℚ)
  | [] => .ok []
  | .dropped :: rest => processSlots rest
  | .built runs :: rest =>
    match evalWorkloads runs with
    | (_, some e) => .error e
    | (hits, none) =>
      match processSlots rest with
      | .error e => .error e
      | .ok scores => .ok ((hits.sum / (runs.length : ℚ)) :: scores)

/-! ## Character-level lemmas about `Char.toLower` -/

theorem char_toNat_toLower (c : Char) :
    (c.toLower).toNat = if 65 ≤ c.toNat ∧ c.toNat ≤ 90 then c.toNat + 32 else c.toNat := by
  simp only [Char.toLower]
  split
  · next h =>
    have hv : (c.toNat + 32).isValidChar := by
      left
      have := h.2
      omega
    rw [Char.ofNat, dif_pos hv]
    simp only [Char.ofNatAux, Char.toNat, UInt32.toNat]
    simp
  · rfl

theorem char_isUpper_iff (c : Char) : c.isUpper = true ↔ 65 ≤ c.toNat ∧ c.toNat ≤ 90 := by
  simp only [Char.isUpper, Bool.and_eq_true, decide_eq_true_eq]
  exact Iff.rfl

theorem char_isLower_iff (c : Char) : c.isLower = true ↔ 97 ≤ c.toNat ∧ c.toNat ≤ 122 := by
  simp only [Char.isLower, Bool.and_eq_true, decide_eq_true_eq]
  exact Iff.rfl

theorem char_isDigit_iff (c : Char) : c.isDigit = true ↔ 48 ≤ c.toNat ∧ c.toNat ≤ 57 := by
  simp only [Char.isDigit, Bool.and_eq_true, decide_eq_true_eq]
  exact Iff.rfl

theorem char_eq_iff_toNat (c d : Char) : c = d ↔ c.toNat = d.toNat := by
  constructor
  · rintro rfl; rfl
  · intro h
    apply Char.ext
    apply UInt32.eq_of_toBitVec_eq
    apply BitVec.eq_of_toNat_eq
    exact h

theorem toLower_isUpper_false (c : Char) : (c.toLower).isUpper = false := by
  rw [← Bool.not_eq_true, char_isUpper_iff, char_toNat_toLower]
  split <;> omega

theorem toLower_isAlphanum (c : Char) (h : c.isAlphanum = true) :
    (c.toLower).isAlphanum = true := by
  simp only [Char.isAlphanum, Char.isAlpha, Bool.or_eq_true] at h ⊢
  rw [char_isUpper_iff, char_isLower_iff, char_isDigit_iff, char_toNat_toLower]
  rw [char_isUpper_iff, char_isLower_iff, char_isDigit_iff] at h
  rcases h with (h | h) | h <;> split <;> omega

theorem toLower_underscore_eq (c : Char) (h : c.toLower = '_') : c = '_' := by
  rw [char_eq_iff_toNat] at h
  rw [char_toNat_toLower] at h
  rw [char_eq_iff_toNat]
  revert h
  split <;> intro h <;> simp_all

/-! ## List-level lemmas for `stripUnderscores` -/

theorem head?_dropWhile {p : Char → Bool} :
    ∀ (l : List Char) (c : Char), (l.dropWhile p).head? = some c → p c = false := by
  intro l
  induction l with
  | nil => intro c h; simp [List.dropWhile] at h
  | cons a t ih =>
    intro c h
    rw [List.dropWhile_cons] at h
    by_cases hp : p a = true
    · rw [if_pos hp] at h
      exact ih c h
    · rw [if_neg hp] at h
      simp only [List.head?_cons, Option.some.injEq] at h
      subst h
      exact Bool.eq_false_iff.mpr hp

theorem head?_of_head?_rstrip {p : Char → Bool} (Y : List Char) (c : Char)
    (h : ((Y.reverse.dropWhile p).reverse).head? = some c) : Y.head? = some c := by
  have hsuf : Y.reverse.dropWhile p <:+ Y.reverse := List.dropWhile_suffix p
  obtain ⟨t, ht⟩ := hsuf
  have hY : (Y.reverse.dropWhile p).reverse ++ t.reverse = Y := by
    have := congrArg List.reverse ht
    simpa [List.reverse_append] using this
  rw [← hY]
  rcases he : (Y.reverse.dropWhile p).reverse with _ | ⟨a, xs⟩
  · rw [he] at h; simp at h
  · rw [he] at h
    simpa using h

theorem stripUnderscores_head (l : List Char) (c : Char)
    (h : (stripUnderscores l).head? = some c) : c ≠ '_' := by
  unfold stripUnderscores at h
  have h2 := head?_of_head?_rstrip (p := (· = '_')) (l.dropWhile (· = '_')) c h
  have h3 := head?_dropWhile l c h2
  simpa using h3

theorem stripUnderscores_getLast (l : List Char) (c : Char)
    (h : (stripUnderscores l).getLast? = some c) : c ≠ '_' := by
  unfold stripUnderscores at h
  rw [List.getLast?_reverse] at h
  have h3 := head?_dropWhile (l.dropWhile (· = '_')).reverse c h
  simpa using h3

theorem stripUnderscores_subset (l : List Char) :
    ∀ c, c ∈ stripUnderscores l → c ∈ l := by
  intro c hc
  unfold stripUnderscores at hc
  rw [List.mem_reverse] at hc
  have h1 := (List.dropWhile_suffix (l := (l.dropWhile (· = '_')).reverse) (· = '_')).subset hc
  rw [List.mem_reverse] at h1
  exact (List.dropWhile_suffix (l := l) (· = '_')).subset h1

/-! ## Claim C4 — aggregate score over an empty observation set -/

/-- C4, counterexample: the claim says `aggregateScore` over an empty
observation set yields "no score" and never the numeric value `0.0`;
but `evaluate_policy`'s aggregator (`mean_ipc = ... if results else 0.0`)
returns exactly the numeric value `0.0` on the empty set. -/
theorem c4_mean_ipc_empty_counterexample : mean_ipc [] = 0 := by decide

/-- C4 (amended): `aggregateScore` over an empty observation set returns
the sentinel `0.0` (not "no score"); candidate exclusion happens one
level up — an iteration whose candidate list is empty performs no
selection and no recording: the loop state passes through the feedback
update unchanged in its records, and the exit flag stays false. -/
theorem c4_mean_ipc_empty_amended :
    mean_ipc [] = 0 ∧
    (∀ f s, loopStep f s none = (feedbackUpdate f s, false)) ∧
    (∀ f s, (feedbackUpdate f s).records = s.records) := by
  refine ⟨by decide, fun f s => rfl, fun f s => ?_⟩
  unfold feedbackUpdate
  split
  · rfl
  · split <;> rfl

/-! ## Claim C7 — sanitization of candidate names -/

/-- C7, counterexample: the claim says sanitization collapses redundant
consecutive separators into one; the source's `sanitize` does not —
`"a!!b"` becomes `"a__b"`, while the spec-described collapsing
sanitizer would produce `"a_b"`. -/
theorem c7_sanitize_counterexample :
    sanitize "a!!b" = "a__b" ∧ sanitizeSpec "a!!b" = "a_b" ∧
    sanitize "a!!b" ≠ sanitizeSpec "a!!b" := by decide

/-- C7 (amended): `sanitize` maps each non-alphanumeric character to a
single separator `_`, strips leading and trailing separators, and
lower-cases the result — but it does NOT collapse consecutive
separators.  Every character of the result is the separator or a
lower-cased alphanumeric, and the result neither starts nor ends with
the separator. -/
theorem c7_sanitize_amended (name : String) :
    (∀ c ∈ (sanitize name).data, c = '_' ∨ (c.isAlphanum = true ∧ c.isUpper = false)) ∧
    (∀ c, (sanitize name).data.head? = some c → c ≠ '_') ∧
    (∀ c, (sanitize name).data.getLast? = some c → c ≠ '_') ∧
    sanitize "a!!b" = "a__b" := by
  refine ⟨?_, ?_, ?_, by decide⟩
  · intro c hc
    unfold sanitize at hc
    rw [List.mem_map] at hc
    obtain ⟨d, hd, rfl⟩ := hc
    have hdM := stripUnderscores_subset _ d hd
    rw [List.mem_map] at hdM
    obtain ⟨e, _, rfl⟩ := hdM
    by_cases he : e.isAlphanum = true
    · rw [if_pos he]
      exact Or.inr ⟨toLower_isAlphanum e he, toLower_isUpper_false e⟩
    · rw [if_neg he]
      left
      decide
  · intro c hc
    unfold sanitize at hc
    rw [List.head?_map] at hc
    rcases hh : (stripUnderscores (name.data.map fun c => if c.isAlphanum then c else '_')).head? with
      _ | d
    · rw [hh] at hc; cases hc
    · rw [hh] at hc
      simp only [Option.map_some', Option.some.injEq] at hc
      subst hc
      intro hu
      exact stripUnderscores_head _ d hh (toLower_underscore_eq d hu)
  · intro c hc
    unfold sanitize at hc
    rw [List.getLast?_map] at hc
    rcases hh : (stripUnderscores (name.data.map fun c => if c.isAlphanum then c else '_')).getLast? with
      _ | d
    · rw [hh] at hc; cases hc
    · rw [hh] at hc
      simp only [Option.map_some', Option.some.injEq] at hc
      subst hc
      intro hu
      exact stripUnderscores_getLast _ d hh (toLower_underscore_eq d hu)

/-- C7 witness: the amended theorem applied at `"a!!b"`, whose sanitized
head character is `a`. -/
theorem c7_sanitize_amended_witness : ('a' : Char) ≠ '_' :=
  (c7_sanitize_amended "a!!b").2.1 'a' (by decide)

/-! ## Claim C10 — zero LLC accesses -/

/-- C10: when the LLC TOTAL statistics line reports an ACCESS count of 0,
`parse_hit_rate` returns `0.0` (rather than raising) and
`parse_cache_hit_rate` returns `0.0` (rather than "absent"). -/
theorem c10_zero_access (out : String) (hit : Nat)
    (h : searchLLC out = some (0, hit)) :
    parse_hit_rate out = .ok 0 ∧ parse_cache_hit_rate out = some 0 := by
  unfold parse_hit_rate parse_cache_hit_rate
  rw [h]
  simp

/-- C10 witness: a concrete output with a zero ACCESS count. -/
theorem c10_zero_access_witness :
    parse_hit_rate "LLC TOTAL ACCESS: 0 HIT: 0" = .ok 0 ∧
    parse_cache_hit_rate "LLC TOTAL ACCESS: 0 HIT: 0" = some 0 :=
  c10_zero_access "LLC TOTAL ACCESS: 0 HIT: 0" 0 (by decide)

/-! ## Claim C8 — all-or-nothing candidate parsing -/

/-- C8: the parse-and-validate step yields a candidate iff all three
extracted sections are truthy (present and non-empty); when it yields a
candidate, every field is exactly the corresponding extraction — never a
partially populated candidate. -/
theorem c8_parse_generator_response (text : String) :
    ((parseGeneratorResponse text).isSome = true ↔
      (pyTruthy (parse_policy_content text).1 = true ∧
       pyTruthy (parse_policy_content text).2.1 = true ∧
       pyTruthy (parse_policy_content text).2.2 = true)) ∧
    (∀ cand, parseGeneratorResponse text = some cand →
      (parse_policy_content text).1 = some cand.name ∧
      (parse_policy_content text).2.1 = some cand.desc ∧
      (parse_policy_content text).2.2 = some cand.code ∧
      cand.name.isEmpty = false ∧ cand.desc.isEmpty = false ∧
      cand.code.isEmpty = false) := by
  unfold parseGeneratorResponse
  rcases hp : parse_policy_content text with ⟨nO, dO, cO⟩
  constructor
  · cases nO with
    | none => simp [pyTruthy]
    | some n =>
      cases dO with
      | none => simp [pyTruthy]
      | some d =>
        cases cO with
        | none => simp [pyTruthy]
        | some c =>
          simp only [pyTruthy]
          split
          · next hempty =>
            simp only [Option.isSome_none, Bool.false_eq_true, false_iff]
            intro ⟨h1, h2, h3⟩
            rcases Bool.or_eq_true _ _ |>.mp hempty with h | h
            · rcases Bool.or_eq_true _ _ |>.mp h with h' | h'
              · rw [h'] at h1; exact absurd h1 (by decide)
              · rw [h'] at h2; exact absurd h2 (by decide)
            · rw [h] at h3; exact absurd h3 (by decide)
          · next hempty =>
            simp only [Option.isSome_some, true_iff]
            have h1 : n.isEmpty = false := by
              cases hn : n.isEmpty
              · rfl
              · exact absurd (by rw [hn]; simp) hempty
            have h2 : d.isEmpty = false := by
              cases hd : d.isEmpty
              · rfl
              · exact absurd (by rw [hd]; simp) hempty
            have h3 : c.isEmpty = false := by
              cases hc : c.isEmpty
              · rfl
              · exact absurd (by rw [hc]; simp) hempty
            exact ⟨by simp [h1], by simp [h2], by simp [h3]⟩
  · intro cand hc
    cases nO with
    | none => cases hc
    | some n =>
      cases dO with
      | none => cases hc
      | some d =>
        cases cO with
        | none => cases hc
        | some c =>
          have hc' : (if (n.isEmpty || d.isEmpty || c.isEmpty) = true then none
              else some (⟨n, d, c⟩ : Candidate)) = some cand := hc
          by_cases hempty : (n.isEmpty || d.isEmpty || c.isEmpty) = true
          · rw [if_pos hempty] at hc'
            cases hc'
          · rw [if_neg hempty] at hc'
            have hcand : cand = ⟨n, d, c⟩ := by
              cases hc'; rfl
            subst hcand
            have h1 : n.isEmpty = false := by
              cases hn : n.isEmpty
              · rfl
              · exact absurd (by simp [hn]) hempty
            have h2 : d.isEmpty = false := by
              cases hd : d.isEmpty
              · rfl
              · exact absurd (by simp [hd]) hempty
            have h3 : c.isEmpty = false := by
              cases hc' : c.isEmpty
              · rfl
              · exact absurd (by simp [hc']) hempty
            exact ⟨rfl, rfl, rfl, h1, h2, h3⟩

/-- C8 witness: a well-formed response; the validated candidate's fields
are exactly the three extractions. -/
theorem c8_parse_generator_response_witness :
    (parse_policy_content
        "## Policy Name\nA\n## Policy Description\nB\n```cpp\nC\n```").1 = some "A" ∧
    (parse_policy_content
        "## Policy Name\nA\n## Policy Description\nB\n```cpp\nC\n```").2.1 = some "B" ∧
    (parse_policy_content
        "## Policy Name\nA\n## Policy Description\nB\n```cpp\nC\n```").2.2 = some "C" ∧
    ("A" : String).isEmpty = false ∧ ("B" : String).isEmpty = false ∧
    ("C" : String).isEmpty = false :=
  (c8_parse_generator_response
      "## Policy Name\nA\n## Policy Description\nB\n```cpp\nC\n```").2
    ⟨"A", "B", "C"⟩ (by decide)

/-! ## Claim C2 — the primary metric extractor's strategy cascade -/

/-- C2: `parse_ipc` tries exactly four strategies in priority order —
per-core cumulative pattern, aggregate `Overall IPC` pattern,
typo-tolerant cumulative pattern taking the last match, and the
Total-Instructions / Total-Cycles ratio guarded against zero cycles —
returning the first success; `"CPU 0 cumulative IPC: 1.2345"` yields
`1.2345` and Totals `1000`/`500` yield `2.0`; when all four strategies
fail it fails with an error carrying only the bounded 500-character tail
of the output, and every returned value comes from one of the four
strategies (never a default such as `0.0`). -/
theorem c2_parse_ipc_cascade :
    (parse_ipc "CPU 0 cumulative IPC: 1.2345" = .ok (12345 / 10000)) ∧
    (parse_ipc "Total Instructions: 1000\nTotal Cycles: 500" = .ok 2) ∧
    (∀ out v, searchCpuIpc out = some v → parse_ipc out = .ok v) ∧
    (∀ out v, searchCpuIpc out = none → searchOverallIpc out = some v →
      parse_ipc out = .ok v) ∧
    (∀ out v, searchCpuIpc out = none → searchOverallIpc out = none →
      (findallCum out.data).getLast? = some v → parse_ipc out = .ok v) ∧
    (∀ out i cyc, searchCpuIpc out = none → searchOverallIpc out = none →
      (findallCum out.data).getLast? = none → searchTotalInstr out = some i →
      searchTotalCycles out = some cyc → 0 < cyc →
      parse_ipc out = .ok (Rat.divInt i cyc)) ∧
    (∀ out, searchCpuIpc out = none → searchOverallIpc out = none →
      (findallCum out.data).getLast? = none →
      (∀ i cyc, searchTotalInstr out = some i → searchTotalCycles out = some cyc →
        cyc = 0) →
      parse_ipc out = .error ⟨pyTail 500 out⟩ ∧ (pyTail 500 out).length ≤ 500) ∧
    (∀ out v, parse_ipc out = .ok v →
      searchCpuIpc out = some v ∨ searchOverallIpc out = some v ∨
      (findallCum out.data).getLast? = some v ∨
      (∃ i cyc, searchTotalInstr out = some i ∧ searchTotalCycles out = some cyc ∧
        0 < cyc ∧ v = Rat.divInt i cyc)) := by
  have htail : ∀ out : String, (pyTail 500 out).length ≤ 500 := by
    intro out
    show (out.data.drop (out.data.length - 500)).length ≤ 500
    rw [List.length_drop]
    omega
  refine ⟨?_, by decide, ?_, ?_, ?_, ?_, ?_, ?_⟩
  · have h1 : parse_ipc "CPU 0 cumulative IPC: 1.2345" =
        .ok (Rat.divInt 12345 10000) := by decide
    have e1 : (Rat.divInt 12345 10000 : ℚ) = 12345 / 10000 := by
      rw [Rat.divInt_eq_div]
      norm_num
    rw [h1, e1]
  · intro out v h
    unfold parse_ipc
    rw [h]
  · intro out v h1 h2
    unfold parse_ipc
    rw [h1, h2]
  · intro out v h1 h2 h3
    unfold parse_ipc
    rw [h1, h2, h3]
  · intro out i cyc h1 h2 h3 h4 h5 h6
    have hform : parse_ipc out =
        if 0 < cyc then .ok (Rat.divInt (i : ℤ) (cyc : ℤ))
        else .error ⟨pyTail 500 out⟩ := by
      unfold parse_ipc
      rw [h1, h2, h3, h4, h5]
    rw [hform, if_pos h6]
  · intro out h1 h2 h3 h4
    refine ⟨?_, htail out⟩
    unfold parse_ipc
    rw [h1, h2, h3]
    rcases hi : searchTotalInstr out with _ | i
    · rfl
    · rcases hc : searchTotalCycles out with _ | cyc
      · rfl
      · have := h4 i cyc hi hc
        subst this
        rfl
  · intro out v h
    unfold parse_ipc at h
    rcases ha : searchCpuIpc out with _ | va
    · rw [ha] at h
      rcases hb : searchOverallIpc out with _ | vb
      · rw [hb] at h
        rcases hcm : (findallCum out.data).getLast? with _ | vc
        · rw [hcm] at h
          rcases hi : searchTotalInstr out with _ | i
          · rw [hi] at h; cases h
          · rw [hi] at h
            rcases hc : searchTotalCycles out with _ | cyc
            · rw [hc] at h; cases h
            · rw [hc] at h
              have h' : (if 0 < cyc then
                    (.ok (Rat.divInt (i : ℤ) (cyc : ℤ)) : Except MetricNotFound ℚ)
                  else .error ⟨pyTail 500 out⟩) = .ok v := h
              by_cases hpos : 0 < cyc
              · rw [if_pos hpos] at h'
                cases h'
                exact Or.inr (Or.inr (Or.inr ⟨i, cyc, rfl, rfl, hpos, rfl⟩))
              · rw [if_neg hpos] at h'; cases h'
        · rw [hcm] at h
          cases h
          exact Or.inr (Or.inr (Or.inl rfl))
      · rw [hb] at h
        cases h
        exact Or.inr (Or.inl rfl)
    · rw [ha] at h
      cases h
      exact Or.inl rfl

/-- C2 witness: the aggregate-summary strategy fires exactly when the
per-core strategy finds nothing. -/
theorem c2_parse_ipc_cascade_witness :
    parse_ipc "Overall IPC: 3.5" = .ok (Rat.divInt 35 10) :=
  c2_parse_ipc_cascade.2.2.2.1 "Overall IPC: 3.5" (Rat.divInt 35 10)
    (by decide) (by decide)

/-! ## Claim C3 — last-match-wins for cumulative reports -/

/-- C3, counterexample: the claim says that for EVERY run output with
two cumulative-IPC report lines `1.0` and `2.0` in that order the
extractor returns `2.0`; but for two correctly spelled per-core lines
the first `re.search` strategy wins and the extractor returns `1.0`. -/
theorem c3_last_match_counterexample :
    parse_ipc "CPU 0 cumulative IPC: 1.0\nCPU 0 cumulative IPC: 2.0" = .ok 1 ∧
    (1 : ℚ) ≠ 2 := by
  refine ⟨by decide, by norm_num⟩

/-- C3 (amended): last-match-wins holds for the typo-tolerant cumulative
pattern (spellings `cummulative`/`cmmulative`), and only when the
per-core and aggregate patterns find no match: in that case the
extractor returns the value of the last typo-pattern match, so two such
heartbeat lines `1.0` then `2.0` yield `2.0`.  (For correctly spelled
per-core lines, the FIRST match wins, as the counterexample shows.) -/
theorem c3_last_match_amended :
    (∀ out v l, searchCpuIpc out = none → searchOverallIpc out = none →
      findallCum out.data = l ++ [v] → parse_ipc out = .ok v) ∧
    parse_ipc "Heartbeat cummulative IPC: 1.0\nHeartbeat cummulative IPC: 2.0" =
      .ok 2 := by
  refine ⟨?_, by decide⟩
  intro out v l h1 h2 h3
  unfold parse_ipc
  rw [h1, h2, h3, List.getLast?_concat]

/-- C3 witness: the amended rule applied to a concrete heartbeat log. -/
theorem c3_last_match_amended_witness :
    parse_ipc "x cummulative IPC: 1.0 y cummulative IPC: 2.5" =
      .ok (Rat.divInt 25 10) :=
  c3_last_match_amended.1 "x cummulative IPC: 1.0 y cummulative IPC: 2.5"
    (Rat.divInt 25 10) [1] (by decide) (by decide) (by decide)

/-! ## Claim C9 — deterministic selection -/

theorem pyMaxByAvg_cons (a x : CandidateResult) (l : List CandidateResult) :
    pyMaxByAvg a (x :: l) = pyMaxByAvg (if x.avg_hit > a.avg_hit then x else a) l := rfl

theorem pyMaxByAvg_mem (l : List CandidateResult) :
    ∀ a, pyMaxByAvg a l = a ∨ pyMaxByAvg a l ∈ l := by
  induction l with
  | nil => intro a; left; rfl
  | cons x t ih =>
    intro a
    rw [pyMaxByAvg_cons]
    rcases ih (if x.avg_hit > a.avg_hit then x else a) with h | h
    · rw [h]
      split
      · right; exact List.mem_cons_self x t
      · left; rfl
    · right; exact List.mem_cons_of_mem x h

theorem pyMaxByAvg_ub (l : List CandidateResult) :
    ∀ a, a.avg_hit ≤ (pyMaxByAvg a l).avg_hit ∧
      ∀ x ∈ l, x.avg_hit ≤ (pyMaxByAvg a l).avg_hit := by
  induction l with
  | nil => intro a; exact ⟨le_refl _, by simp⟩
  | cons x t ih =>
    intro a
    rw [pyMaxByAvg_cons]
    obtain ⟨h1, h2⟩ := ih (if x.avg_hit > a.avg_hit then x else a)
    have ha : a.avg_hit ≤ (if x.avg_hit > a.avg_hit then x else a).avg_hit := by
      split
      · next hgt => exact le_of_lt hgt
      · exact le_refl _
    have hx : x.avg_hit ≤ (if x.avg_hit > a.avg_hit then x else a).avg_hit := by
      split
      · exact le_refl _
      · next hle => exact le_of_not_lt hle
    refine ⟨le_trans ha h1, ?_⟩
    intro y hy
    rcases List.mem_cons.mp hy with rfl | hy
    · exact le_trans hx h1
    · exact h2 y hy

theorem pyMaxByAvg_le_seed (l : List CandidateResult) :
    ∀ a, (pyMaxByAvg a l).avg_hit ≤ a.avg_hit → pyMaxByAvg a l = a := by
  induction l with
  | nil => intro a _; rfl
  | cons x t ih =>
    intro a h
    rw [pyMaxByAvg_cons] at h ⊢
    by_cases hx : x.avg_hit > a.avg_hit
    · rw [if_pos hx] at h
      have := (pyMaxByAvg_ub t x).1
      exact absurd (lt_of_lt_of_le hx (le_trans this h)) (lt_irrefl _)
    · rw [if_neg hx] at h ⊢
      exact ih a h

theorem pyMaxByAvg_first_index (l : List CandidateResult) :
    ∀ a, ∃ i, (a :: l).get? i = some (pyMaxByAvg a l) ∧
      ∀ j d, j < i → (a :: l).get? j = some d →
        d.avg_hit < (pyMaxByAvg a l).avg_hit := by
  induction l with
  | nil =>
    intro a
    exact ⟨0, rfl, by omega⟩
  | cons x t ih =>
    intro a
    by_cases hP : (pyMaxByAvg a (x :: t)).avg_hit ≤ a.avg_hit
    · have := pyMaxByAvg_le_seed (x :: t) a hP
      rw [this]
      exact ⟨0, rfl, by omega⟩
    · push_neg at hP
      rw [pyMaxByAvg_cons] at hP ⊢
      by_cases hx : x.avg_hit > a.avg_hit
      · rw [if_pos hx] at hP ⊢
        obtain ⟨i', hi', hlt'⟩ := ih x
        refine ⟨i' + 1, hi', ?_⟩
        intro j d hj hd
        match j, hd with
        | 0, hd =>
          cases hd
          exact hP
        | (k + 1), hd =>
          exact hlt' k d (by omega) hd
      · rw [if_neg hx] at hP ⊢
        obtain ⟨i'', hi'', hlt''⟩ := ih a
        match i'', hi'' with
        | 0, hi'' =>
          rw [List.get?_cons_zero] at hi''
          have heq : a = pyMaxByAvg a t := Option.some.inj hi''
          rw [← heq] at hP
          exact absurd hP (lt_irrefl _)
        | (k + 1), hi'' =>
          rw [List.get?_cons_succ] at hi''
          refine ⟨k + 2, hi'', ?_⟩
          intro j d hj hd
          match j, hd with
          | 0, hd =>
            cases hd
            exact hP
          | 1, hd =>
            cases hd
            exact lt_of_le_of_lt (le_of_not_lt hx) hP
          | (m + 2), hd =>
            exact hlt'' (m + 1) d (by omega) hd

/-- C9: selection over a non-empty candidate list is deterministic (it is
a pure function of the list) and returns an element that attains the
maximal aggregate score; every earlier-slot element has a strictly
smaller score — so on ties the earlier generation slot wins. -/
theorem c9_selection (l : List CandidateResult) (h : l ≠ []) :
    ∃ i c, selectBest l = some c ∧ l.get? i = some c ∧
      (∀ j d, l.get? j = some d → d.avg_hit ≤ c.avg_hit) ∧
      (∀ j d, j < i → l.get? j = some d → d.avg_hit < c.avg_hit) := by
  match l, h with
  | a :: t, _ =>
    obtain ⟨i, hi, hlt⟩ := pyMaxByAvg_first_index t a
    refine ⟨i, pyMaxByAvg a t, rfl, hi, ?_, hlt⟩
    intro j d hj
    have hd : d ∈ a :: t := List.get?_mem hj
    obtain ⟨h1, h2⟩ := pyMaxByAvg_ub t a
    rcases List.mem_cons.mp hd with rfl | hd
    · exact h1
    · exact h2 d hd

/-- C9 witness: two candidates with identical scores — the selection
exists, attains the maximum, and every slot before the chosen one is
strictly worse (so the tie resolves to slot 0). -/
theorem c9_selection_witness :
    ∃ i c, selectBest [⟨"p0", 1⟩, ⟨"p1", 1⟩] = some c ∧
      [(⟨"p0", 1⟩ : CandidateResult), ⟨"p1", 1⟩].get? i = some c ∧
      (∀ j d, [(⟨"p0", 1⟩ : CandidateResult), ⟨"p1", 1⟩].get? j = some d →
        d.avg_hit ≤ c.avg_hit) ∧
      (∀ j d, j < i → [(⟨"p0", 1⟩ : CandidateResult), ⟨"p1", 1⟩].get? j = some d →
        d.avg_hit < c.avg_hit) :=
  c9_selection [⟨"p0", 1⟩, ⟨"p1", 1⟩] (by simp)

/-! ## Claim C5 — monotonicity of `best_hit` -/

theorem feedbackUpdate_best_le (f : Bool) (s : LoopState) :
    s.best ≤ (feedbackUpdate f s).best := by
  unfold feedbackUpdate
  split
  · exact le_refl _
  · split
    · next h => exact le_of_lt h
    · exact le_refl _

theorem loopStep_best_le (f : Bool) (s : LoopState) (o : Option ℚ) :
    s.best ≤ ((loopStep f s o).1).best := by
  unfold loopStep
  cases o
  · exact feedbackUpdate_best_le f s
  · exact feedbackUpdate_best_le f s

theorem loopStep_best_changed (f : Bool) (s : LoopState) (o : Option ℚ)
    (h : ((loopStep f s o).1).best ≠ s.best) :
    f = false ∧ s.best < s.current ∧ ((loopStep f s o).1).best = s.current := by
  have hb : ((loopStep f s o).1).best = (feedbackUpdate f s).best := by
    unfold loopStep
    cases o <;> rfl
  rw [hb] at h ⊢
  unfold feedbackUpdate at h ⊢
  cases f
  · simp only [Bool.false_eq_true, if_false] at h ⊢
    by_cases hc : s.current > s.best
    · rw [if_pos hc]
      exact ⟨by simp, hc, rfl⟩
    · rw [if_neg hc] at h
      exact absurd rfl h
  · simp only [if_true] at h
    exact absurd rfl h

theorem runLoop_best_le (outs : List (Option ℚ)) :
    ∀ (i : Nat) (s : LoopState), s.best ≤ (runLoop i s outs).best := by
  induction outs with
  | nil => intro i s; exact le_refl _
  | cons o rest ih =>
    intro i s
    show s.best ≤ (if (loopStep (i == 0) s o).2 then (loopStep (i == 0) s o).1
      else runLoop (i + 1) (loopStep (i == 0) s o).1 rest).best
    by_cases h2 : (loopStep (i == 0) s o).2 = true
    · rw [if_pos h2]
      exact loopStep_best_le _ _ _
    · rw [if_neg (by simpa using h2)]
      exact le_trans (loopStep_best_le _ _ _) (ih _ _)

theorem runLoop_best_mono_extend (extra : List (Option ℚ)) :
    ∀ (l : List (Option ℚ)) (i : Nat) (s : LoopState),
      (runLoop i s l).best ≤ (runLoop i s (l ++ extra)).best := by
  intro l
  induction l with
  | nil => intro i s; exact runLoop_best_le extra i s
  | cons o rest ih =>
    intro i s
    show (if (loopStep (i == 0) s o).2 then (loopStep (i == 0) s o).1
        else runLoop (i + 1) (loopStep (i == 0) s o).1 rest).best ≤
      (if (loopStep (i == 0) s o).2 then (loopStep (i == 0) s o).1
        else runLoop (i + 1) (loopStep (i == 0) s o).1 (rest ++ extra)).best
    by_cases h2 : (loopStep (i == 0) s o).2 = true
    · rw [if_pos h2, if_pos h2]
    · rw [if_neg (by simpa using h2), if_neg (by simpa using h2)]
      exact ih _ _

/-- C5: over any run, `best_hit` is monotonically non-decreasing across
iterations (`i < j` implies `bestAt i ≤ bestAt j`, early exit included),
and a step changes `best_hit` only by replacing it with the previously
chosen score (`current_hit`) when that score is strictly greater. -/
theorem c5_best_monotone (s0 : LoopState) (outs : List (Option ℚ)) (i j : Nat)
    (hij : i < j) :
    bestAt s0 outs i ≤ bestAt s0 outs j ∧
    (∀ f s o, ((loopStep f s o).1).best ≠ s.best →
      f = false ∧ s.best < s.current ∧ ((loopStep f s o).1).best = s.current) := by
  refine ⟨?_, loopStep_best_changed⟩
  unfold bestAt
  have hle : i ≤ j := le_of_lt hij
  have hsplit : outs.take j = outs.take i ++ (outs.drop i).take (j - i) := by
    conv_lhs => rw [← Nat.add_sub_cancel' hle]
    exact List.take_add outs i (j - i)
  rw [hsplit]
  exact runLoop_best_mono_extend _ _ 0 s0

/-- C5 witness: a concrete two-iteration run. -/
theorem c5_best_monotone_witness :
    bestAt ⟨1, 1, []⟩ [some 2, some 3] 0 ≤ bestAt ⟨1, 1, []⟩ [some 2, some 3] 2 :=
  (c5_best_monotone ⟨1, 1, []⟩ [some 2, some 3] 0 2 (by omega)).1

/-! ## Claim C6 — the early-exit rule -/

/-- C6: the early exit fires iff a candidate was chosen, the
pre-iteration `best_hit` (after the feedback-time fold-in of the
previous iteration's score, which the source performs lazily at the top
of the iteration) is strictly positive, and the chosen score divided by
it exceeds 1.3; on a first iteration whose `best_hit` is 0 it never
fires; and when it fires, the chosen score has already been recorded
(it is the last record) and the loop stops at exactly that state. -/
theorem c6_early_exit (f : Bool) (s : LoopState) (o : Option ℚ) (i : Nat)
    (rest : List (Option ℚ)) :
    ((loopStep f s o).2 = true ↔
      ∃ c, o = some c ∧ 0 < (feedbackUpdate f s).best ∧
        (13 : ℚ) / 10 < c / (feedbackUpdate f s).best) ∧
    (f = true → s.best = 0 → (loopStep f s o).2 = false) ∧
    ((loopStep f s o).2 = true →
      ∃ c, o = some c ∧ ((loopStep f s o).1).records.getLast? = some c) ∧
    ((loopStep (i == 0) s o).2 = true → runLoop i s (o :: rest) = (loopStep (i == 0) s o).1) := by
  refine ⟨?_, ?_, ?_, ?_⟩
  · cases o with
    | none => simp [loopStep]
    | some c =>
      show (decide (0 < (feedbackUpdate f s).best ∧
          (13 : ℚ) / 10 < c / (feedbackUpdate f s).best) = true ↔ _)
      rw [decide_eq_true_eq]
      constructor
      · intro ⟨h1, h2⟩
        exact ⟨c, rfl, h1, h2⟩
      · rintro ⟨c', hc', h1, h2⟩
        cases hc'
        exact ⟨h1, h2⟩
  · intro hf hb
    subst hf
    cases o with
    | none => rfl
    | some c =>
      show decide (0 < (feedbackUpdate true s).best ∧
        (13 : ℚ) / 10 < c / (feedbackUpdate true s).best) = false
      have : (feedbackUpdate true s).best = 0 := by
        unfold feedbackUpdate
        rw [if_pos rfl]
        exact hb
      rw [this]
      simp
  · cases o with
    | none => intro h; cases h
    | some c =>
      intro _
      refine ⟨c, rfl, ?_⟩
      show ((feedbackUpdate f s).records ++ [c]).getLast? = some c
      exact List.getLast?_concat _
  · intro h
    show (if (loopStep (i == 0) s o).2 then (loopStep (i == 0) s o).1
      else runLoop (i + 1) (loopStep (i == 0) s o).1 rest) = (loopStep (i == 0) s o).1
    rw [if_pos h]

/-- C6 witness: with pre-iteration best `1` and chosen score `2`
(ratio 2 > 1.3) the exit fires. -/
theorem c6_early_exit_witness : (loopStep false ⟨1, 1, []⟩ (some 2)).2 = true :=
  (c6_early_exit false ⟨1, 1, []⟩ (some 2) 1 []).1.mpr
    ⟨2, rfl, by norm_num [feedbackUpdate], by norm_num [feedbackUpdate]⟩

/-! ## Claim C1 — containment of run-level errors -/

theorem evalWorkloads_stops_at_error (post : List (Except Unit String)) :
    ∀ (pre : List String),
      (∀ s ∈ pre, ∃ h, parse_hit_rate s = .ok h) →
      ∃ hits, evalWorkloads (pre.map .ok ++ .error () :: post) =
          (hits, some .runFailed) ∧ hits.length = pre.length := by
  intro pre
  induction pre with
  | nil =>
    intro _
    exact ⟨[], rfl, rfl⟩
  | cons s t ih =>
    intro hpre
    obtain ⟨h, hs⟩ := hpre s (List.mem_cons_self s t)
    obtain ⟨hits, hh, hlen⟩ := ih fun x hx => hpre x (List.mem_cons_of_mem s hx)
    refine ⟨h :: hits, ?_, by simpa using hlen⟩
    show (match parse_hit_rate s with
      | .error m => ([], some (.metricNotFound m))
      | .ok h =>
        let r := evalWorkloads (t.map .ok ++ .error () :: post)
        (h :: r.1, r.2)) = (h :: hits, some .runFailed)
    rw [hs, hh]

/-- C1, counterexample: the claim says a failed (or timed-out) run on one
benchmark item drops only that item's observation while the remaining
items of the candidate are still evaluated, and that such errors never
abort the whole run.  In the source there is no exception handler around
the per-benchmark loop (nor around the candidate loop up to the top of
`main`): with five benchmark items whose second run fails, only ONE
observation is produced (items three to five are never evaluated), and
the whole candidate loop aborts — a second, fully healthy candidate is
never evaluated. -/
theorem c1_run_error_counterexample :
    evalWorkloads [.ok "LLC TOTAL ACCESS: 10 HIT: 5", .error (),
        .ok "LLC TOTAL ACCESS: 10 HIT: 5", .ok "LLC TOTAL ACCESS: 10 HIT: 5",
        .ok "LLC TOTAL ACCESS: 10 HIT: 5"] =
      ([Rat.divInt 5 10], some .runFailed) ∧
    processSlots [.built [.ok "LLC TOTAL ACCESS: 10 HIT: 5", .error (),
        .ok "LLC TOTAL ACCESS: 10 HIT: 5", .ok "LLC TOTAL ACCESS: 10 HIT: 5",
        .ok "LLC TOTAL ACCESS: 10 HIT: 5"],
      .built (List.replicate 5 (.ok "LLC TOTAL ACCESS: 10 HIT: 5"))] =
      .error .runFailed := by decide

/-- C1 (amended): generation, parse, and compile failures ARE contained —
a dropped slot is skipped and the candidate loop continues — but a
failed or timed-out run (and likewise a metric-extraction failure) on
one benchmark item is uncaught: evaluation stops at that item, the
observations are exactly those of the preceding items, and the error
propagates out of the candidate loop, aborting the whole search run. -/
theorem c1_error_containment_amended (pre : List String)
    (post : List (Except Unit String)) (rest : List SlotOutcome)
    (hpre : ∀ s ∈ pre, ∃ h, parse_hit_rate s = .ok h) :
    (evalWorkloads (pre.map .ok ++ .error () :: post)).2 = some .runFailed ∧
    (evalWorkloads (pre.map .ok ++ .error () :: post)).1.length = pre.length ∧
    processSlots (.built (pre.map .ok ++ .error () :: post) :: rest) =
      .error .runFailed ∧
    (∀ slots, processSlots (.dropped :: slots) = processSlots slots) := by
  obtain ⟨hits, hh, hlen⟩ := evalWorkloads_stops_at_error post pre hpre
  refine ⟨by rw [hh], by rw [hh]; exact hlen, ?_, fun slots => rfl⟩
  simp only [processSlots]
  rw [hh]

/-- C1 witness: one healthy item before the failing one — exactly one
observation survives and the run aborts. -/
theorem c1_error_containment_amended_witness :
    (evalWorkloads (["LLC TOTAL ACCESS: 10 HIT: 5"].map .ok ++ .error () :: [])).2 =
      some .runFailed ∧
    (evalWorkloads (["LLC TOTAL ACCESS: 10 HIT: 5"].map .ok ++ .error () :: [])).1.length =
      ["LLC TOTAL ACCESS: 10 HIT: 5"].length ∧
    processSlots (.built (["LLC TOTAL ACCESS: 10 HIT: 5"].map .ok ++ .error () :: []) :: []) =
      .error .runFailed ∧
    (∀ slots, processSlots (.dropped :: slots) = processSlots slots) :=
  c1_error_containment_amended ["LLC TOTAL ACCESS: 10 HIT: 5"] [] []
    (by
      intro s hs
      rw [List.mem_singleton] at hs
      subst hs
      exact ⟨Rat.divInt 5 10, by decide⟩)
